import Mathlib

/-!
# lichen: `internal/module` (Extract and Fetch)

A shallow embedding of `internal/module/extract.go` and `internal/module/fetch.go`.

The two entry points talk to the operating system (search path lookup, path
normalisation, temporary directory, external process) and to two library
decoders.  Each of these collaborators is a field of the environment `Env`;
every call made to one of them is recorded, in program order, in the trace of
the run, so that statements such as "no process is started" or "the directory
is removed once" are statements about the trace.
-/

set_option autoImplicit false

namespace Lichen

/-! ## Data model (package `model`) -/

/-- Modelled from the spec: `model.ModuleReference`, whose declaration is not part of the
sources at hand.  The spec describes it as a (path, version) pair that may be flagged local,
compared by value on path, version and locality. -/
structure ModuleReference where
  Path : String
  Version : String
  Local : Bool
  deriving DecidableEq, Repr

/-- Modelled from the spec: `ModuleReference.IsLocal`, the locality flag of a reference. -/
def ModuleReference.IsLocal (r : ModuleReference) : Bool := r.Local

/-- Modelled from the spec: `ModuleReference.String`, the `module-path@version` form in which a
reference is handed to `go mod download` and printed by `%s`. -/
def ModuleReference.String (r : ModuleReference) : String := r.Path ++ "@" ++ r.Version

/-- Modelled from the spec: `model.Module`, a `ModuleReference` (embedded field) enriched with
resolution metadata: download location, archive checksum and on-disk info.  The zero value of
each metadata field is the empty string. -/
structure Module where
  ModuleReference : ModuleReference
  DownloadLocation : String := ""
  ArchiveChecksum : String := ""
  OnDiskInfo : String := ""
  deriving DecidableEq, Repr

/-- Modelled from the spec: `model.BuildInfo`, one record per inspected binary: its path and the
ordered module dependency entries (path, version, checksum). -/
structure BuildInfo where
  Path : String
  Modules : List (String × String × String) := []
  deriving DecidableEq, Repr

/-! ## Errors -/

/-- Go `error` values, kept as terms: a `fmt.Errorf` call is recorded with its format string and
its operands instead of being rendered. -/
inductive GoError where
  /-- `errors.New(text)`, and every error value produced by a collaborator. -/
  | New (text : String)
  /-- `fmt.Errorf(format, args...)` without a `%w` verb. -/
  | Errorf (format : String) (args : List String)
  /-- `fmt.Errorf(format, ...)` with one `%w` operand `err`; `args` are the other operands. -/
  | Wrapf (format : String) (err : GoError) (args : List String)
  /-- `*multierror.Error` with its `Errors` slice. -/
  | Multi (Errors : List GoError)

/-- `multierror.Append(err, e)` for one appended error `e` that is not itself a
`*multierror.Error`; `none` is the nil error. -/
def multierrorAppend (err : Option GoError) (e : GoError) : GoError :=
  match err with
  | none => .Multi [e]
  | some (.Multi errs) => .Multi (errs ++ [e])
  | some other => .Multi [other, e]

/-! ## Collaborators and traces -/

/-- What `cmd.Output()` hands back, with the test `errors.As(err, &exitErr)` already made. -/
inductive OutputResult where
  /-- `err == nil`; `out` is the captured standard output. -/
  | ok (out : String)
  /-- `err` is an `*exec.ExitError` carrying `Stderr`. -/
  | exitError (err : GoError) (Stderr : String)
  /-- Any other error. -/
  | failed (err : GoError)

/-- What one call of `dec.Decode(&m)` hands back, with the test `errors.Is(err, io.EOF)`
already made. -/
inductive DecodeResult where
  /-- `err == nil`; `m` is the decoded record. -/
  | value (m : Module)
  /-- `errors.Is(err, io.EOF)`. -/
  | EOF
  /-- Any other error. -/
  | failed (err : GoError)

/-- The operating system and library collaborators of the package.  The caller's context is part
of the environment: a cancelled context shows as a failing `Output` or `CombinedOutput`. -/
structure Env where
  /-- `exec.LookPath(file)` -/
  LookPath : String → Except GoError String
  /-- `filepath.Abs(path)` -/
  Abs : String → Except GoError String
  /-- `filepath.EvalSymlinks(path)` -/
  EvalSymlinks : String → Except GoError String
  /-- `filepath.Base(path)` -/
  Base : String → String
  /-- `os.MkdirTemp(dir, pattern)` -/
  MkdirTemp : String → String → Except GoError String
  /-- `os.Remove(name)`; `none` is the nil error. -/
  Remove : String → Option GoError
  /-- `exec.CommandContext(ctx, name, args...)` with `cmd.Dir = dir`, then `cmd.Output()`. -/
  Output : String → List String → String → OutputResult
  /-- `exec.CommandContext(ctx, name, args...)` with `cmd.Dir = dir`, then
  `cmd.CombinedOutput()`: the captured output and the error (`none` is nil). -/
  CombinedOutput : String → List String → String → String × Option GoError
  /-- `buildinfo.Parse(output)` -/
  Parse : String → Except GoError (List BuildInfo)
  /-- `json.NewDecoder(bytes.NewReader(out))`: the results of the successive `Decode` calls on
  `out`, up to the point where the input is exhausted; every later call returns `io.EOF`.  The
  list is finite because `out` is and each decoded value consumes input. -/
  NewDecoder : String → List DecodeResult

/-- One call to a collaborator. -/
inductive Event where
  | LookPath (file : String)
  | Abs (path : String)
  | EvalSymlinks (path : String)
  | MkdirTemp (dir pattern : String)
  /-- The external process `name args...` is run in working directory `dir`. -/
  | Run (name : String) (args : List String) (dir : String)
  | Remove (name : String)
  /-- `slog.Error(msg, slog.String("reason", reason.Error()))` -/
  | SlogError (msg : String) (reason : GoError)

/-- Whether an event is an attempt to remove a file or directory. -/
def Event.isRemove : Event → Bool
  | .Remove _ => true
  | _ => false

/-- The outcome of running a piece of the program: what it returns (`.error e` stands for the
pair `nil, e` or `"", e`) and the collaborator calls it made, in order. -/
structure Run (α : Type) where
  ret : Except GoError α
  trace : List Event

namespace Run

/-- Return without calling anything. -/
def value {α : Type} (a : α) : Run α := ⟨.ok a, []⟩

/-- Return the error `e` without calling anything. -/
def fail {α : Type} (e : GoError) : Run α := ⟨.error e, []⟩

/-- Sequencing with `if err != nil { return ..., err }` after the first part. -/
def bind {α β : Type} (x : Run α) (f : α → Run β) : Run β :=
  match x.ret with
  | .error e => ⟨.error e, x.trace⟩
  | .ok a => ⟨(f a).ret, x.trace ++ (f a).trace⟩

instance : Monad Run where
  pure := Run.value
  bind := Run.bind

/-- A call to a collaborator: record it, and continue with its result. -/
def call {α : Type} (ev : Event) (r : Except GoError α) : Run α := ⟨r, [ev]⟩

/-- Replace a returned error `err` by `w err`. -/
def mapErr {α : Type} (w : GoError → GoError) (x : Run α) : Run α :=
  match x.ret with
  | .error e => ⟨.error (w e), x.trace⟩
  | .ok a => ⟨.ok a, x.trace⟩

/-- The statement `defer cleanup()` followed by `body`: the calls of `cleanup` happen when `body`
returns, whatever it returns, and do not change the returned values. -/
def defer {α : Type} (cleanup : List Event) (body : Run α) : Run α :=
  ⟨body.ret, body.trace ++ cleanup⟩

end Run

open Run

/-- The deferred function of `goVersion` and `Fetch`:
`if err := os.Remove(tempDir); err != nil { slog.Error(...) }`. -/
def removeTempDir (env : Env) (tempDir : String) : List Event :=
  match env.Remove tempDir with
  | some err => [.Remove tempDir, .SlogError "failed to remove temporary folder/files" err]
  | none => [.Remove tempDir]

/-! ## extract.go -/

/-- `verifyExtracted` ensures all requested paths are covered by the parsed output.  The map
`buildInfos` is the list of its keys. -/
def verifyExtracted (extracted : List BuildInfo) (requested : List String) : Option GoError :=
  let buildInfos : List String :=
    extracted.foldl (fun m binary => if binary.Path ∈ m then m else binary.Path :: m) []
  requested.foldl
    (fun err path =>
      if path ∈ buildInfos then err
      else some (multierrorAppend err
        (.Errorf "modules could not be obtained from %[1]s (hint: run `go version -m %[1]q`)"
          [path])))
    none

/-- `goVersion` runs `go version -m [paths ...]` and returns the output. -/
def goVersion (env : Env) (paths : List String) : Run String := do
  let goBin ← call (.LookPath "go") (env.LookPath "go")
  let goBin ← call (.Abs goBin) (env.Abs goBin)
  let goBin ← call (.EvalSymlinks goBin) (env.EvalSymlinks goBin)
  if env.Base goBin ≠ "go" ∧ env.Base goBin ≠ "go.exe" then
    fail (.New "unexpected binary resolved")
  else do
    let tempDir ← mapErr (fun err => .Wrapf "failed to create temp directory: %w" err [])
      (call (.MkdirTemp "" "lichen") (env.MkdirTemp "" "lichen"))
    defer (removeTempDir env tempDir) do
      let args := ["version", "-m"] ++ paths
      call (.Run goBin args tempDir)
        (match env.Output goBin args tempDir with
        | .ok out => .ok out
        | .exitError err Stderr =>
          .error (.Wrapf "error when running 'go version': %w - stderr: %s" err [Stderr])
        | .failed err => .error (.Wrapf "error when running 'go version': %w" err []))

/-- `Extract` extracts build information from the supplied binaries. -/
def Extract (env : Env) (paths : List String) : Run (List BuildInfo) := do
  let output ← goVersion env paths
  let parsed ← (⟨env.Parse output, []⟩ : Run (List BuildInfo))
  match verifyExtracted parsed paths with
  | some err => fail (.Wrapf "could not extract module information: %w" err [])
  | none => value parsed

/-! ## fetch.go -/

/-- The decoding loop of `Fetch`: `for { var m model.Module; if err := dec.Decode(&m); ... }`.
The first argument is what the decoder still has to return; `modules` is the slice built so
far. -/
def decodeLoop : List DecodeResult → List Module → Except GoError (List Module)
  | [], modules => .ok modules
  | .EOF :: _, modules => .ok modules
  | .failed err :: _, _ => .error err
  | .value m :: dec, modules => decodeLoop dec (modules ++ [m])

/-- `verifyFetched`: every requested reference must be the reference of a fetched module.  The
map `fetchedRefs` is the list of its keys. -/
def verifyFetched (fetched : List Module) (requested : List ModuleReference) : Option GoError :=
  let fetchedRefs : List ModuleReference :=
    fetched.foldl
      (fun m module => if module.ModuleReference ∈ m then m else module.ModuleReference :: m) []
  requested.foldl
    (fun err ref =>
      if ref ∈ fetchedRefs then err
      else some (multierrorAppend err (.Errorf "module %s could not be resolved" [ref.String])))
    none

/-- The arguments of the `go mod download` command built by `Fetch`. -/
def fetchArgs (refs : List ModuleReference) : List String :=
  refs.foldl (fun args ref => if !ref.IsLocal then args ++ [ref.String] else args)
    ["mod", "download", "-json"]

/-- The loop of `Fetch` that adds local modules to the decoded ones. -/
def addLocal (modules : List Module) (refs : List ModuleReference) : List Module :=
  refs.foldl (fun modules ref => if ref.IsLocal then modules ++ [{ ModuleReference := ref }]
    else modules) modules

/-- `Fetch` resolves the references with `go mod download -json`. -/
def Fetch (env : Env) (refs : List ModuleReference) : Run (List Module) :=
  if refs.length = 0 then value []
  else do
    let goBin ← call (.LookPath "go") (env.LookPath "go")
    let goBin ← call (.Abs goBin) (env.Abs goBin)
    let goBin ← call (.EvalSymlinks goBin) (env.EvalSymlinks goBin)
    if env.Base goBin ≠ "go" ∧ env.Base goBin ≠ "go.exe" then
      fail (.New "unexpected binary resolved")
    else do
      let tempDir ← mapErr (fun err => .Wrapf "failed to create temp directory: %w" err [])
        (call (.MkdirTemp "" "lichen") (env.MkdirTemp "" "lichen"))
      defer (removeTempDir env tempDir) do
        let args := fetchArgs refs
        let out ← call (.Run goBin args tempDir)
          (match env.CombinedOutput goBin args tempDir with
          | (out, some err) => .error (.Wrapf "failed to fetch: %w (output: %s)" err [out])
          | (out, none) => .ok out)
        let modules ← (⟨decodeLoop (env.NewDecoder out) [], []⟩ : Run (List Module))
        let modules := addLocal modules refs
        match verifyFetched modules refs with
        | some err => fail (.Wrapf "failed to fetch all modules: %w" err [])
        | none => value modules

/-! ## A concrete environment -/

/-- `filepath.Base` on a platform whose separator is `/`. -/
def unixBase (path : String) : String :=
  if path = "" then "."
  else
    let stripped := path.toList.reverse.dropWhile (· = '/')
    if stripped = [] then "/" else String.mk (stripped.takeWhile (· ≠ '/')).reverse

/-- A machine on which `go` is found as `found`, which resolves to `resolved`; temporary
directories can be created; `go version -m` prints `stdout`, parsed as `parsed`;
`go mod download -json` prints `stdout`, decoded as `stream`; `removal` is what removing the
temporary directory returns. -/
def machine (found resolved stdout : String) (parsed : List BuildInfo)
    (stream : List DecodeResult) (removal : Option GoError) : Env where
  LookPath := fun _ => .ok found
  Abs := fun p => .ok p
  EvalSymlinks := fun _ => .ok resolved
  Base := unixBase
  MkdirTemp := fun _ pattern => .ok ("/tmp/" ++ pattern ++ "1")
  Remove := fun _ => removal
  Output := fun _ _ _ => .ok stdout
  CombinedOutput := fun _ _ _ => (stdout, none)
  Parse := fun _ => .ok parsed
  NewDecoder := fun _ => stream

/-- A machine with a Go toolchain: `go` is found as `/usr/bin/go`, a symbolic link to
`/usr/lib/go/bin/go`, and removing the temporary directory succeeds. -/
def goMachine (stdout : String) (parsed : List BuildInfo) (stream : List DecodeResult) : Env :=
  machine "/usr/bin/go" "/usr/lib/go/bin/go" stdout parsed stream none

/-- A machine on which the `go` of the search path is a symbolic link to another program. -/
def hijackedMachine : Env :=
  machine "/usr/bin/go" "/opt/evil/gopher" "" [] [] none

/-- The record `go mod download -json` prints for `b@v2`. -/
def resolvedB : Module :=
  ⟨⟨"b", "v2", false⟩, "/cache/download/b/@v/v2.zip", "h1:b", "/cache/b@v2"⟩

/-- A machine with a Go toolchain that behaves as `go mod download` does when it is given no
module argument in a directory without a `go.mod`, such as a fresh temporary directory: it
prints `go: no modules specified` and exits with status 1. -/
def goMachineNoModules : Env where
  LookPath := fun _ => .ok "/usr/bin/go"
  Abs := fun p => .ok p
  EvalSymlinks := fun _ => .ok "/usr/lib/go/bin/go"
  Base := unixBase
  MkdirTemp := fun _ pattern => .ok ("/tmp/" ++ pattern ++ "1")
  Remove := fun _ => none
  Output := fun _ _ _ => .ok ""
  CombinedOutput := fun _ args _ =>
    if args = ["mod", "download", "-json"] then
      ("go: no modules specified (see 'go help mod download')", some (.New "exit status 1"))
    else ("", none)
  Parse := fun _ => .ok []
  NewDecoder := fun _ => []

/-- A machine without a Go toolchain on its search path. -/
def machineWithoutGo : Env where
  LookPath := fun _ => .error (.New "executable file not found in $PATH")
  Abs := fun p => .ok p
  EvalSymlinks := fun p => .ok p
  Base := unixBase
  MkdirTemp := fun _ pattern => .ok ("/tmp/" ++ pattern ++ "1")
  Remove := fun _ => none
  Output := fun _ _ _ => .ok ""
  CombinedOutput := fun _ _ _ => ("", none)
  Parse := fun _ => .ok []
  NewDecoder := fun _ => []

/-! ## Sequencing lemmas -/

theorem bind_eq {α β : Type} (x : Run α) (f : α → Run β) : x >>= f = Run.bind x f := rfl

/-! ## The key sets and the aggregated diagnostics -/

/-- The keys of the map built by the first loop of a verifier are the keys of the records. -/
theorem mem_keys {α β : Type} [DecidableEq α] (key : β → α) (l : List β) (init : List α)
    (x : α) :
    x ∈ l.foldl (fun m b => if key b ∈ m then m else key b :: m) init ↔
      x ∈ init ∨ x ∈ l.map key := by
  induction l generalizing init with
  | nil => simp
  | cons b l ih =>
    simp only [List.foldl_cons, List.map_cons, List.mem_cons]
    rw [ih]
    by_cases hb : key b ∈ init
    · simp only [hb, if_true]
      constructor
      · rintro (h | h)
        · exact Or.inl h
        · exact Or.inr (Or.inr h)
      · rintro (h | h | h)
        · exact Or.inl h
        · exact Or.inl (h ▸ hb)
        · exact Or.inr h
    · simp only [hb, if_false, List.mem_cons]
      tauto

theorem multierrorAppend_nil (e : GoError) : multierrorAppend none e = .Multi [e] := rfl

theorem multierrorAppend_multi (errs : List GoError) (e : GoError) :
    multierrorAppend (some (.Multi errs)) e = .Multi (errs ++ [e]) := rfl

/-- The second loop of a verifier, started on a non-nil aggregated error. -/
theorem report_some {α : Type} (p : α → Prop) [DecidablePred p] (d : α → GoError)
    (l : List α) (errs : List GoError) :
    l.foldl (fun err x => if p x then err else some (multierrorAppend err (d x)))
        (some (.Multi errs)) =
      some (.Multi (errs ++ (l.filter (fun x => decide (¬ p x))).map d)) := by
  induction l generalizing errs with
  | nil => simp
  | cons x l ih =>
    by_cases hx : p x
    · simp [List.foldl_cons, hx, ih]
    · simp only [List.foldl_cons, hx, if_false, multierrorAppend_multi, ih]
      simp [hx]

/-- The second loop of a verifier, started on the nil error. -/
theorem report_none {α : Type} (p : α → Prop) [DecidablePred p] (d : α → GoError)
    (l : List α) :
    l.foldl (fun err x => if p x then err else some (multierrorAppend err (d x))) none =
      match (l.filter (fun x => decide (¬ p x))).map d with
      | [] => none
      | errs => some (.Multi errs) := by
  induction l with
  | nil => simp
  | cons x l ih =>
    by_cases hx : p x
    · simp [List.foldl_cons, hx, ih]
    · simp only [List.foldl_cons, hx, if_false, multierrorAppend_nil, report_some]
      simp [hx]

/-! ## The verifiers -/

/-- `verifyExtracted` reports exactly the requested paths that no parsed record has, in request
order. -/
theorem verifyExtracted_eq (extracted : List BuildInfo) (requested : List String) :
    verifyExtracted extracted requested =
      match (requested.filter (fun p => decide (p ∉ extracted.map BuildInfo.Path))).map
          (fun p => GoError.Errorf
            "modules could not be obtained from %[1]s (hint: run `go version -m %[1]q`)" [p]) with
      | [] => none
      | errs => some (.Multi errs) := by
  unfold verifyExtracted
  simp only [report_none, mem_keys, List.not_mem_nil, false_or]

/-- `verifyFetched` reports exactly the requested references that no fetched module has, in
request order. -/
theorem verifyFetched_eq (fetched : List Module) (requested : List ModuleReference) :
    verifyFetched fetched requested =
      match (requested.filter
          (fun r => decide (r ∉ fetched.map Module.ModuleReference))).map
          (fun r => GoError.Errorf "module %s could not be resolved" [r.String]) with
      | [] => none
      | errs => some (.Multi errs) := by
  unfold verifyFetched
  simp only [report_none, mem_keys, List.not_mem_nil, false_or]

theorem aggregate_eq_none {α : Type} (l : List α) (d : α → GoError) :
    (match l.map d with
      | [] => none
      | errs => some (GoError.Multi errs)) = none ↔ l = [] := by
  cases l <;> simp

theorem aggregate_eq_some {α : Type} (l : List α) (d : α → GoError) (h : l ≠ []) :
    (match l.map d with
      | [] => none
      | errs => some (GoError.Multi errs)) = some (.Multi (l.map d)) := by
  cases l with
  | nil => exact absurd rfl h
  | cons x l => simp

/-! ## Extract -/

theorem Extract_trace (env : Env) (paths : List String) :
    (Extract env paths).trace = (goVersion env paths).trace := by
  simp only [Extract, bind_eq, Run.bind]
  cases (goVersion env paths).ret with
  | error e => rfl
  | ok output =>
    simp only []
    cases env.Parse output with
    | error e => simp
    | ok parsed =>
      simp only []
      cases verifyExtracted parsed paths <;> simp [fail, value]

theorem Extract_ret (env : Env) (paths : List String) (output : String)
    (parsed : List BuildInfo) (hrun : (goVersion env paths).ret = .ok output)
    (hparse : env.Parse output = .ok parsed) :
    (Extract env paths).ret =
      match verifyExtracted parsed paths with
      | some err => .error (.Wrapf "could not extract module information: %w" err [])
      | none => .ok parsed := by
  simp only [Extract, bind_eq, Run.bind, hrun, hparse]
  cases verifyExtracted parsed paths <;> simp [fail, value]

/-- What `goVersion` does once the toolchain is located and the workspace exists. -/
theorem goVersion_located (env : Env) (paths : List String) (found abs goBin tempDir : String)
    (h1 : env.LookPath "go" = .ok found) (h2 : env.Abs found = .ok abs)
    (h3 : env.EvalSymlinks abs = .ok goBin)
    (h4 : env.Base goBin = "go" ∨ env.Base goBin = "go.exe")
    (h5 : env.MkdirTemp "" "lichen" = .ok tempDir) :
    (goVersion env paths).trace =
      [.LookPath "go", .Abs found, .EvalSymlinks abs, .MkdirTemp "" "lichen",
        .Run goBin (["version", "-m"] ++ paths) tempDir] ++ removeTempDir env tempDir := by
  have h4' : ¬ (env.Base goBin ≠ "go" ∧ env.Base goBin ≠ "go.exe") := by tauto
  simp only [goVersion, bind_eq, Run.bind, call, h1, h2, h3, h4', mapErr, h5, defer, if_false]
  rfl

/-- Every way `goVersion` can go, by the first collaborator that fails. -/
theorem goVersion_cases (env : Env) (paths : List String) :
    (∃ found abs goBin tempDir, env.LookPath "go" = .ok found ∧ env.Abs found = .ok abs ∧
      env.EvalSymlinks abs = .ok goBin ∧ (env.Base goBin = "go" ∨ env.Base goBin = "go.exe") ∧
      env.MkdirTemp "" "lichen" = .ok tempDir) ∨
    (∃ e, env.LookPath "go" = .error e ∧ goVersion env paths = ⟨.error e, [.LookPath "go"]⟩) ∨
    (∃ found e, env.LookPath "go" = .ok found ∧ env.Abs found = .error e ∧
      goVersion env paths = ⟨.error e, [.LookPath "go", .Abs found]⟩) ∨
    (∃ found abs e, env.LookPath "go" = .ok found ∧ env.Abs found = .ok abs ∧
      env.EvalSymlinks abs = .error e ∧
      goVersion env paths = ⟨.error e, [.LookPath "go", .Abs found, .EvalSymlinks abs]⟩) ∨
    (∃ found abs goBin, env.LookPath "go" = .ok found ∧ env.Abs found = .ok abs ∧
      env.EvalSymlinks abs = .ok goBin ∧ env.Base goBin ≠ "go" ∧ env.Base goBin ≠ "go.exe" ∧
      goVersion env paths = ⟨.error (.New "unexpected binary resolved"),
        [.LookPath "go", .Abs found, .EvalSymlinks abs]⟩) ∨
    (∃ found abs goBin e, env.LookPath "go" = .ok found ∧ env.Abs found = .ok abs ∧
      env.EvalSymlinks abs = .ok goBin ∧ env.MkdirTemp "" "lichen" = .error e ∧
      goVersion env paths = ⟨.error (.Wrapf "failed to create temp directory: %w" e []),
        [.LookPath "go", .Abs found, .EvalSymlinks abs, .MkdirTemp "" "lichen"]⟩) := by
  cases h1 : env.LookPath "go" with
  | error e =>
    refine Or.inr (Or.inl ⟨e, rfl, ?_⟩)
    simp [goVersion, bind_eq, Run.bind, call, h1]
  | ok found =>
    cases h2 : env.Abs found with
    | error e =>
      refine Or.inr (Or.inr (Or.inl ⟨found, e, rfl, h2, ?_⟩))
      simp [goVersion, bind_eq, Run.bind, call, h1, h2]
    | ok abs =>
      cases h3 : env.EvalSymlinks abs with
      | error e =>
        refine Or.inr (Or.inr (Or.inr (Or.inl ⟨found, abs, e, rfl, h2, h3, ?_⟩)))
        simp [goVersion, bind_eq, Run.bind, call, h1, h2, h3]
      | ok goBin =>
        by_cases h4 : env.Base goBin ≠ "go" ∧ env.Base goBin ≠ "go.exe"
        · refine Or.inr (Or.inr (Or.inr (Or.inr (Or.inl
            ⟨found, abs, goBin, rfl, h2, h3, h4.1, h4.2, ?_⟩))))
          simp only [goVersion, bind_eq, Run.bind, call, h1, h2, h3, fail]
          rw [if_pos h4]
          rfl
        · cases h5 : env.MkdirTemp "" "lichen" with
          | error e =>
            refine Or.inr (Or.inr (Or.inr (Or.inr (Or.inr
              ⟨found, abs, goBin, e, rfl, h2, h3, rfl, ?_⟩))))
            simp only [goVersion, bind_eq, Run.bind, call, h1, h2, h3, mapErr, h5]
            rw [if_neg h4]
            rfl
          | ok tempDir =>
            exact Or.inl ⟨found, abs, goBin, tempDir, rfl, h2, h3, by tauto, rfl⟩

/-! ## Fetch -/

/-- The value `Fetch` returns once the toolchain is located and the workspace exists. -/
theorem Fetch_located_ret (env : Env) (refs : List ModuleReference)
    (found abs goBin tempDir : String) (hne : refs ≠ [])
    (h1 : env.LookPath "go" = .ok found) (h2 : env.Abs found = .ok abs)
    (h3 : env.EvalSymlinks abs = .ok goBin)
    (h4 : env.Base goBin = "go" ∨ env.Base goBin = "go.exe")
    (h5 : env.MkdirTemp "" "lichen" = .ok tempDir) :
    (Fetch env refs).ret =
      match env.CombinedOutput goBin (fetchArgs refs) tempDir with
      | (out, some err) => .error (.Wrapf "failed to fetch: %w (output: %s)" err [out])
      | (out, none) =>
        match decodeLoop (env.NewDecoder out) [] with
        | .error e => .error e
        | .ok modules =>
          match verifyFetched (addLocal modules refs) refs with
          | some err => .error (.Wrapf "failed to fetch all modules: %w" err [])
          | none => .ok (addLocal modules refs) := by
  have hlen : refs.length ≠ 0 := by simpa using hne
  have h4' : ¬ (env.Base goBin ≠ "go" ∧ env.Base goBin ≠ "go.exe") := by tauto
  simp only [Fetch, hlen, if_false, bind_eq, Run.bind, call, h1, h2, h3, h4', mapErr, h5, defer]
  rcases env.CombinedOutput goBin (fetchArgs refs) tempDir with ⟨out, _ | err⟩
  · simp only []
    cases decodeLoop (env.NewDecoder out) [] with
    | error e => rfl
    | ok modules =>
      simp only []
      cases verifyFetched (addLocal modules refs) refs <;> rfl
  · rfl

/-- The calls `Fetch` makes once the toolchain is located and the workspace exists. -/
theorem Fetch_located_trace (env : Env) (refs : List ModuleReference)
    (found abs goBin tempDir : String) (hne : refs ≠ [])
    (h1 : env.LookPath "go" = .ok found) (h2 : env.Abs found = .ok abs)
    (h3 : env.EvalSymlinks abs = .ok goBin)
    (h4 : env.Base goBin = "go" ∨ env.Base goBin = "go.exe")
    (h5 : env.MkdirTemp "" "lichen" = .ok tempDir) :
    (Fetch env refs).trace =
      [.LookPath "go", .Abs found, .EvalSymlinks abs, .MkdirTemp "" "lichen",
        .Run goBin (fetchArgs refs) tempDir] ++ removeTempDir env tempDir := by
  have hlen : refs.length ≠ 0 := by simpa using hne
  have h4' : ¬ (env.Base goBin ≠ "go" ∧ env.Base goBin ≠ "go.exe") := by tauto
  simp only [Fetch, hlen, if_false, bind_eq, Run.bind, call, h1, h2, h3, h4', mapErr, h5, defer]
  rcases env.CombinedOutput goBin (fetchArgs refs) tempDir with ⟨out, _ | err⟩
  · simp only []
    cases decodeLoop (env.NewDecoder out) [] with
    | error e => rfl
    | ok modules =>
      simp only []
      cases verifyFetched (addLocal modules refs) refs <;> rfl
  · rfl

/-- Every way `Fetch` can go on a non-empty list, by the first collaborator that fails. -/
theorem Fetch_cases (env : Env) (refs : List ModuleReference) (hne : refs ≠ []) :
    (∃ found abs goBin tempDir, env.LookPath "go" = .ok found ∧ env.Abs found = .ok abs ∧
      env.EvalSymlinks abs = .ok goBin ∧ (env.Base goBin = "go" ∨ env.Base goBin = "go.exe") ∧
      env.MkdirTemp "" "lichen" = .ok tempDir) ∨
    (∃ e, env.LookPath "go" = .error e ∧ Fetch env refs = ⟨.error e, [.LookPath "go"]⟩) ∨
    (∃ found e, env.LookPath "go" = .ok found ∧ env.Abs found = .error e ∧
      Fetch env refs = ⟨.error e, [.LookPath "go", .Abs found]⟩) ∨
    (∃ found abs e, env.LookPath "go" = .ok found ∧ env.Abs found = .ok abs ∧
      env.EvalSymlinks abs = .error e ∧
      Fetch env refs = ⟨.error e, [.LookPath "go", .Abs found, .EvalSymlinks abs]⟩) ∨
    (∃ found abs goBin, env.LookPath "go" = .ok found ∧ env.Abs found = .ok abs ∧
      env.EvalSymlinks abs = .ok goBin ∧ env.Base goBin ≠ "go" ∧ env.Base goBin ≠ "go.exe" ∧
      Fetch env refs = ⟨.error (.New "unexpected binary resolved"),
        [.LookPath "go", .Abs found, .EvalSymlinks abs]⟩) ∨
    (∃ found abs goBin e, env.LookPath "go" = .ok found ∧ env.Abs found = .ok abs ∧
      env.EvalSymlinks abs = .ok goBin ∧ env.MkdirTemp "" "lichen" = .error e ∧
      Fetch env refs = ⟨.error (.Wrapf "failed to create temp directory: %w" e []),
        [.LookPath "go", .Abs found, .EvalSymlinks abs, .MkdirTemp "" "lichen"]⟩) := by
  have hlen : refs.length ≠ 0 := by simpa using hne
  cases h1 : env.LookPath "go" with
  | error e =>
    refine Or.inr (Or.inl ⟨e, rfl, ?_⟩)
    simp [Fetch, hlen, bind_eq, Run.bind, call, h1]
  | ok found =>
    cases h2 : env.Abs found with
    | error e =>
      refine Or.inr (Or.inr (Or.inl ⟨found, e, rfl, h2, ?_⟩))
      simp [Fetch, hlen, bind_eq, Run.bind, call, h1, h2]
    | ok abs =>
      cases h3 : env.EvalSymlinks abs with
      | error e =>
        refine Or.inr (Or.inr (Or.inr (Or.inl ⟨found, abs, e, rfl, h2, h3, ?_⟩)))
        simp [Fetch, hlen, bind_eq, Run.bind, call, h1, h2, h3]
      | ok goBin =>
        by_cases h4 : env.Base goBin ≠ "go" ∧ env.Base goBin ≠ "go.exe"
        · refine Or.inr (Or.inr (Or.inr (Or.inr (Or.inl
            ⟨found, abs, goBin, rfl, h2, h3, h4.1, h4.2, ?_⟩))))
          simp only [Fetch, hlen, if_false, bind_eq, Run.bind, call, h1, h2, h3, fail]
          rw [if_pos h4]
          rfl
        · cases h5 : env.MkdirTemp "" "lichen" with
          | error e =>
            refine Or.inr (Or.inr (Or.inr (Or.inr (Or.inr
              ⟨found, abs, goBin, e, rfl, h2, h3, rfl, ?_⟩))))
            simp only [Fetch, hlen, if_false, bind_eq, Run.bind, call, h1, h2, h3, mapErr, h5]
            rw [if_neg h4]
            rfl
          | ok tempDir =>
            exact Or.inl ⟨found, abs, goBin, tempDir, rfl, h2, h3, by tauto, rfl⟩

theorem fetchArgs_eq (refs : List ModuleReference) :
    fetchArgs refs =
      ["mod", "download", "-json"] ++
        (refs.filter (fun r => !r.IsLocal)).map ModuleReference.String := by
  unfold fetchArgs
  generalize ["mod", "download", "-json"] = init
  induction refs generalizing init with
  | nil => simp
  | cons r refs ih =>
    rw [List.foldl_cons, ih]
    cases hr : r.IsLocal <;> simp [hr]

theorem addLocal_eq (modules : List Module) (refs : List ModuleReference) :
    addLocal modules refs =
      modules ++ (refs.filter (fun r => r.IsLocal)).map (fun r => ⟨r, "", "", ""⟩) := by
  unfold addLocal
  induction refs generalizing modules with
  | nil => simp
  | cons r refs ih =>
    rw [List.foldl_cons, ih]
    cases hr : r.IsLocal <;> simp [hr]

/-- The loop appends the records decoded before a clean end of stream. -/
theorem decodeLoop_clean (records : List Module) (rest : List DecodeResult)
    (modules : List Module) (hrest : rest = [] ∨ ∃ tl, rest = .EOF :: tl) :
    decodeLoop (records.map .value ++ rest) modules = .ok (modules ++ records) := by
  induction records generalizing modules with
  | nil =>
    rcases hrest with h | ⟨tl, h⟩ <;> simp [h, decodeLoop]
  | cons m records ih => simp [decodeLoop, ih]

/-- The loop returns the first error that is not end-of-stream and drops what it has decoded. -/
theorem decodeLoop_failed (records : List Module) (err : GoError) (rest : List DecodeResult)
    (modules : List Module) :
    decodeLoop (records.map .value ++ .failed err :: rest) modules = .error err := by
  induction records generalizing modules with
  | nil => simp [decodeLoop]
  | cons m records ih => simp [decodeLoop, ih]

theorem not_run_mem_removeTempDir (env : Env) (tempDir name dir : String) (args : List String) :
    Event.Run name args dir ∉ removeTempDir env tempDir := by
  unfold removeTempDir
  cases env.Remove tempDir <;> simp

theorem filter_isRemove_removeTempDir (env : Env) (tempDir : String) :
    (removeTempDir env tempDir).filter Event.isRemove = [.Remove tempDir] := by
  unfold removeTempDir
  cases env.Remove tempDir <;> simp [Event.isRemove]

/-- If `Fetch` ran a process, the toolchain was located and validated, the workspace was created,
and the process is the validated binary with the arguments built from the references. -/
theorem Fetch_run_inv (env : Env) (refs : List ModuleReference) (name dir : String)
    (args : List String) (h : Event.Run name args dir ∈ (Fetch env refs).trace) :
    refs ≠ [] ∧ args = fetchArgs refs ∧ (env.Base name = "go" ∨ env.Base name = "go.exe") ∧
      ∃ found abs, env.LookPath "go" = .ok found ∧ env.Abs found = .ok abs ∧
        env.EvalSymlinks abs = .ok name ∧ env.MkdirTemp "" "lichen" = .ok dir := by
  by_cases hne : refs = []
  · subst hne
    simp [Fetch, value] at h
  · rcases Fetch_cases env refs hne with
      ⟨found, abs, goBin, tempDir, h1, h2, h3, h4, h5⟩ | ⟨e, _, hF⟩ | ⟨found, e, _, _, hF⟩ |
      ⟨found, abs, e, _, _, _, hF⟩ | ⟨found, abs, goBin, _, _, _, _, _, hF⟩ |
      ⟨found, abs, goBin, e, _, _, _, _, hF⟩
    · rw [Fetch_located_trace env refs found abs goBin tempDir hne h1 h2 h3 h4 h5] at h
      simp only [List.mem_append, List.mem_cons, List.mem_singleton, List.not_mem_nil,
        or_false, Event.Run.injEq, false_or, reduceCtorEq] at h
      rcases h with ⟨rfl, rfl, rfl⟩ | h
      · exact ⟨hne, rfl, h4, found, abs, h1, h2, h3, h5⟩
      · exact absurd h (not_run_mem_removeTempDir env tempDir name dir args)
    all_goals (rw [hF] at h; simp at h)

/-- The same for `goVersion`. -/
theorem goVersion_run_inv (env : Env) (paths : List String) (name dir : String)
    (args : List String) (h : Event.Run name args dir ∈ (goVersion env paths).trace) :
    args = ["version", "-m"] ++ paths ∧ (env.Base name = "go" ∨ env.Base name = "go.exe") ∧
      ∃ found abs, env.LookPath "go" = .ok found ∧ env.Abs found = .ok abs ∧
        env.EvalSymlinks abs = .ok name ∧ env.MkdirTemp "" "lichen" = .ok dir := by
  rcases goVersion_cases env paths with
    ⟨found, abs, goBin, tempDir, h1, h2, h3, h4, h5⟩ | ⟨e, _, hF⟩ | ⟨found, e, _, _, hF⟩ |
    ⟨found, abs, e, _, _, _, hF⟩ | ⟨found, abs, goBin, _, _, _, _, _, hF⟩ |
    ⟨found, abs, goBin, e, _, _, _, _, hF⟩
  · rw [goVersion_located env paths found abs goBin tempDir h1 h2 h3 h4 h5] at h
    simp only [List.mem_append, List.mem_cons, List.mem_singleton, List.not_mem_nil,
      or_false, Event.Run.injEq, false_or, reduceCtorEq] at h
    rcases h with ⟨rfl, rfl, rfl⟩ | h
    · exact ⟨rfl, h4, found, abs, h1, h2, h3, h5⟩
    · exact absurd h (not_run_mem_removeTempDir env tempDir name dir args)
  all_goals (rw [hF] at h; simp at h)

/-- What `Fetch` returns when the toolchain command was run and succeeded with output `out`. -/
theorem Fetch_ret_of_run (env : Env) (refs : List ModuleReference) (goBin tempDir out : String)
    (args : List String) (hrun : Event.Run goBin args tempDir ∈ (Fetch env refs).trace)
    (hout : env.CombinedOutput goBin args tempDir = (out, none)) :
    (Fetch env refs).ret =
      match decodeLoop (env.NewDecoder out) [] with
      | .error e => .error e
      | .ok modules =>
        match verifyFetched (addLocal modules refs) refs with
        | some err => .error (.Wrapf "failed to fetch all modules: %w" err [])
        | none => .ok (addLocal modules refs) := by
  obtain ⟨hne, rfl, h4, found, abs, h1, h2, h3, h5⟩ :=
    Fetch_run_inv env refs goBin tempDir args hrun
  rw [Fetch_located_ret env refs found abs goBin tempDir hne h1 h2 h3 h4 h5, hout]

theorem verifyFetched_eq_none_iff (fetched : List Module) (requested : List ModuleReference) :
    verifyFetched fetched requested = none ↔
      ∀ r ∈ requested, ∃ m ∈ fetched, m.ModuleReference = r := by
  rw [verifyFetched_eq, aggregate_eq_none, List.filter_eq_nil_iff]
  simp [List.mem_map]

theorem mem_addLocal_refs (decoded : List Module) (refs : List ModuleReference)
    (r : ModuleReference) (hr : r ∈ refs) :
    r ∈ (addLocal decoded refs).map Module.ModuleReference ↔
      r.IsLocal = true ∨ r ∈ decoded.map Module.ModuleReference := by
  rw [addLocal_eq]
  simp only [List.map_append, List.map_map, List.mem_append, List.mem_map, List.mem_filter,
    Function.comp]
  constructor
  · rintro (h | ⟨x, ⟨_, hx⟩, rfl⟩)
    · exact Or.inr h
    · exact Or.inl hx
  · rintro (h | h)
    · exact Or.inr ⟨r, ⟨hr, h⟩, rfl⟩
    · exact Or.inl h

/-- Verifying the decoded and synthesized modules against all references is verifying the
decoded modules against the non-local references. -/
theorem verifyFetched_addLocal (decoded : List Module) (refs : List ModuleReference) :
    verifyFetched (addLocal decoded refs) refs =
      verifyFetched decoded (refs.filter (fun r => !r.IsLocal)) := by
  rw [verifyFetched_eq, verifyFetched_eq, List.filter_filter]
  have hfilter : refs.filter
      (fun r => decide (r ∉ (addLocal decoded refs).map Module.ModuleReference)) =
      refs.filter (fun r => decide (r ∉ decoded.map Module.ModuleReference) && !r.IsLocal) := by
    apply List.filter_congr
    intro r hr
    have h := mem_addLocal_refs decoded refs r hr
    by_cases hd : r ∈ decoded.map Module.ModuleReference <;>
      cases hl : r.IsLocal <;> simp [h, hd, hl]
  rw [hfilter]

theorem goVersion_ret_remove (env : Env) (paths : List String)
    (removal : String → Option GoError) :
    (goVersion { env with Remove := removal } paths).ret = (goVersion env paths).ret := by
  unfold goVersion
  simp only [bind_eq, Run.bind, call, mapErr, defer, fail]
  cases env.LookPath "go" with
  | error e => rfl
  | ok found =>
    simp only []
    cases env.Abs found with
    | error e => rfl
    | ok abs =>
      simp only []
      cases env.EvalSymlinks abs with
      | error e => rfl
      | ok goBin =>
        simp only []
        split
        · rfl
        · cases env.MkdirTemp "" "lichen" with
          | error e => rfl
          | ok tempDir => rfl

theorem Extract_ret_remove (env : Env) (paths : List String)
    (removal : String → Option GoError) :
    (Extract { env with Remove := removal } paths).ret = (Extract env paths).ret := by
  simp only [Extract, bind_eq, Run.bind, goVersion_ret_remove]
  cases (goVersion env paths).ret <;> rfl

theorem Fetch_ret_remove (env : Env) (refs : List ModuleReference)
    (removal : String → Option GoError) :
    (Fetch { env with Remove := removal } refs).ret = (Fetch env refs).ret := by
  unfold Fetch
  split
  · rfl
  · simp only [bind_eq, Run.bind, call, mapErr, defer, fail, value]
    cases env.LookPath "go" with
    | error e => rfl
    | ok found =>
      simp only []
      cases env.Abs found with
      | error e => rfl
      | ok abs =>
        simp only []
        cases env.EvalSymlinks abs with
        | error e => rfl
        | ok goBin =>
          simp only []
          split
          · rfl
          · cases env.MkdirTemp "" "lichen" with
            | error e => rfl
            | ok tempDir => rfl

/-- The removals attempted by `goVersion`: one, of the workspace, when it was created. -/
theorem goVersion_removals (env : Env) (paths : List String) :
    (∀ tempDir, Event.MkdirTemp "" "lichen" ∈ (goVersion env paths).trace →
        env.MkdirTemp "" "lichen" = .ok tempDir →
        (goVersion env paths).trace.filter Event.isRemove = [.Remove tempDir]) ∧
      ((Event.MkdirTemp "" "lichen" ∉ (goVersion env paths).trace ∨
          ∃ e, env.MkdirTemp "" "lichen" = .error e) →
        (goVersion env paths).trace.filter Event.isRemove = []) := by
  rcases goVersion_cases env paths with
    ⟨found, abs, goBin, tempDir, h1, h2, h3, h4, h5⟩ | ⟨e, _, hF⟩ | ⟨found, e, _, _, hF⟩ |
    ⟨found, abs, e, _, _, _, hF⟩ | ⟨found, abs, goBin, _, _, _, _, _, hF⟩ |
    ⟨found, abs, goBin, e, _, _, _, h5, hF⟩
  · have ht := goVersion_located env paths found abs goBin tempDir h1 h2 h3 h4 h5
    refine ⟨?_, ?_⟩
    · intro t _ h5'
      rw [h5] at h5'
      cases h5'
      rw [ht, List.filter_append, filter_isRemove_removeTempDir]
      rfl
    · rintro (hno | ⟨e, he⟩)
      · refine absurd ?_ hno
        rw [ht]
        simp
      · rw [h5] at he
        cases he
  · rw [hF]
    exact ⟨fun t h _ => by simp at h, fun _ => rfl⟩
  · rw [hF]
    exact ⟨fun t h _ => by simp at h, fun _ => rfl⟩
  · rw [hF]
    exact ⟨fun t h _ => by simp at h, fun _ => rfl⟩
  · rw [hF]
    exact ⟨fun t h _ => by simp at h, fun _ => rfl⟩
  · rw [hF]
    exact ⟨fun t _ h => (by rw [h5] at h; cases h), fun _ => rfl⟩

/-- The removals attempted by `Fetch`: one, of the workspace, when it was created. -/
theorem Fetch_removals (env : Env) (refs : List ModuleReference) :
    (∀ tempDir, Event.MkdirTemp "" "lichen" ∈ (Fetch env refs).trace →
        env.MkdirTemp "" "lichen" = .ok tempDir →
        (Fetch env refs).trace.filter Event.isRemove = [.Remove tempDir]) ∧
      ((Event.MkdirTemp "" "lichen" ∉ (Fetch env refs).trace ∨
          ∃ e, env.MkdirTemp "" "lichen" = .error e) →
        (Fetch env refs).trace.filter Event.isRemove = []) := by
  by_cases hne : refs = []
  · subst hne
    exact ⟨fun t h _ => by simp [Fetch, value] at h, fun _ => rfl⟩
  rcases Fetch_cases env refs hne with
    ⟨found, abs, goBin, tempDir, h1, h2, h3, h4, h5⟩ | ⟨e, _, hF⟩ | ⟨found, e, _, _, hF⟩ |
    ⟨found, abs, e, _, _, _, hF⟩ | ⟨found, abs, goBin, _, _, _, _, _, hF⟩ |
    ⟨found, abs, goBin, e, _, _, _, h5, hF⟩
  · have ht := Fetch_located_trace env refs found abs goBin tempDir hne h1 h2 h3 h4 h5
    refine ⟨?_, ?_⟩
    · intro t _ h5'
      rw [h5] at h5'
      cases h5'
      rw [ht, List.filter_append, filter_isRemove_removeTempDir]
      rfl
    · rintro (hno | ⟨e, he⟩)
      · refine absurd ?_ hno
        rw [ht]
        simp
      · rw [h5] at he
        cases he
  · rw [hF]
    exact ⟨fun t h _ => by simp at h, fun _ => rfl⟩
  · rw [hF]
    exact ⟨fun t h _ => by simp at h, fun _ => rfl⟩
  · rw [hF]
    exact ⟨fun t h _ => by simp at h, fun _ => rfl⟩
  · rw [hF]
    exact ⟨fun t h _ => by simp at h, fun _ => rfl⟩
  · rw [hF]
    exact ⟨fun t _ h => (by rw [h5] at h; cases h), fun _ => rfl⟩

/-! ## The claims -/

/-- C1: `Fetch` called with an empty reference list returns an empty list of modules and no
error, and makes no call at all to a collaborator: no toolchain lookup, no workspace, no
process.  This holds on every environment, also one where the toolchain cannot be found. -/
theorem fetch_empty_no_effects (env : Env) :
    (Fetch env []).ret = .ok [] ∧ (Fetch env []).trace = [] :=
  ⟨rfl, rfl⟩

/-- C2: when the toolchain ran and its output was parsed, and some requested path is the `Path`
of no parsed record, `verifyExtracted` returns an aggregated error holding one diagnostic for
each absent requested entry, in request order, each built from that path with the
`go version -m` hint, and `Extract` returns that error, wrapped, and no record. -/
theorem extract_names_every_absent_path (env : Env) (paths : List String) (output : String)
    (parsed : List BuildInfo) (hrun : (goVersion env paths).ret = .ok output)
    (hparse : env.Parse output = .ok parsed)
    (hgap : ∃ p ∈ paths, ∀ b ∈ parsed, b.Path ≠ p) :
    verifyExtracted parsed paths =
        some (.Multi ((paths.filter (fun p => decide (∀ b ∈ parsed, b.Path ≠ p))).map
          (fun p => .Errorf
            "modules could not be obtained from %[1]s (hint: run `go version -m %[1]q`)"
            [p]))) ∧
      (Extract env paths).ret =
        .error (.Wrapf "could not extract module information: %w"
          (.Multi ((paths.filter (fun p => decide (∀ b ∈ parsed, b.Path ≠ p))).map
            (fun p => .Errorf
              "modules could not be obtained from %[1]s (hint: run `go version -m %[1]q`)"
              [p]))) []) := by
  have hfilter : paths.filter (fun p => decide (p ∉ parsed.map BuildInfo.Path)) =
      paths.filter (fun p => decide (∀ b ∈ parsed, b.Path ≠ p)) := by
    apply List.filter_congr
    intro p _
    simp [List.mem_map]
  have hne : paths.filter (fun p => decide (∀ b ∈ parsed, b.Path ≠ p)) ≠ [] := by
    obtain ⟨p, hp, habs⟩ := hgap
    intro hnil
    have hmem : p ∈ paths.filter (fun p => decide (∀ b ∈ parsed, b.Path ≠ p)) := by
      rw [List.mem_filter]
      exact ⟨hp, by simpa using habs⟩
    rw [hnil] at hmem
    exact absurd hmem (List.not_mem_nil p)
  have hverify := verifyExtracted_eq parsed paths
  rw [hfilter, aggregate_eq_some _ _ hne] at hverify
  refine ⟨hverify, ?_⟩
  rw [Extract_ret env paths output parsed hrun hparse, hverify]

/-- C2, witness: `a`, `b` and `c` are requested and only `b` is parsed; the error names `a` and
`c`, in that order. -/
theorem extract_names_every_absent_path_witness :
    (Extract (goMachine "b: go1.22" [⟨"b", []⟩] []) ["a", "b", "c"]).ret =
      .error (.Wrapf "could not extract module information: %w"
        (.Multi
          [.Errorf "modules could not be obtained from %[1]s (hint: run `go version -m %[1]q`)"
              ["a"],
            .Errorf "modules could not be obtained from %[1]s (hint: run `go version -m %[1]q`)"
              ["c"]]) []) :=
  (extract_names_every_absent_path (goMachine "b: go1.22" [⟨"b", []⟩] [])
    ["a", "b", "c"] "b: go1.22" [⟨"b", []⟩] rfl rfl ⟨"a", by decide, by decide⟩).2

/-- C3, counterexample: the path `app` is requested twice and the parser returns a record for
each mention.  Every requested path has a record and `Extract` succeeds returning both, so the
requested path `app` is the `Path` of two returned records, not of exactly one. -/
theorem extract_keeps_duplicate_records :
    (goVersion (goMachine "app: go1.22 app: go1.22" [⟨"app", []⟩, ⟨"app", []⟩] [])
        ["app", "app"]).ret = .ok "app: go1.22 app: go1.22" ∧
      (∀ p ∈ ["app", "app"], ∃ b ∈ [(⟨"app", []⟩ : BuildInfo), ⟨"app", []⟩], b.Path = p) ∧
      (Extract (goMachine "app: go1.22 app: go1.22" [⟨"app", []⟩, ⟨"app", []⟩] [])
        ["app", "app"]).ret = .ok [⟨"app", []⟩, ⟨"app", []⟩] ∧
      ([(⟨"app", []⟩ : BuildInfo), ⟨"app", []⟩].map BuildInfo.Path).count "app" = 2 :=
  ⟨rfl, by decide, rfl, by decide⟩

/-- C3, as amended: for a non-empty list of requested paths, when the toolchain ran and the
parser returned a record for every requested path, `Extract` succeeds and returns the parsed
records unchanged; every requested path is the `Path` of at least one returned record, and of
exactly one when no two parsed records have the same `Path`. -/
theorem extract_returns_parsed (env : Env) (paths : List String) (output : String)
    (parsed : List BuildInfo) (_hne : paths ≠ [])
    (hrun : (goVersion env paths).ret = .ok output) (hparse : env.Parse output = .ok parsed)
    (hall : ∀ p ∈ paths, ∃ b ∈ parsed, b.Path = p) :
    (Extract env paths).ret = .ok parsed ∧
      ∀ p ∈ paths, 1 ≤ (parsed.map BuildInfo.Path).count p ∧
        ((parsed.map BuildInfo.Path).Nodup → (parsed.map BuildInfo.Path).count p = 1) := by
  have hmem : ∀ p ∈ paths, p ∈ parsed.map BuildInfo.Path := by
    intro p hp
    obtain ⟨b, hb, hbp⟩ := hall p hp
    exact List.mem_map.mpr ⟨b, hb, hbp⟩
  have hfilter : paths.filter (fun p => decide (p ∉ parsed.map BuildInfo.Path)) = [] := by
    rw [List.filter_eq_nil_iff]
    intro p hp
    simpa using hmem p hp
  have hverify := verifyExtracted_eq parsed paths
  rw [hfilter] at hverify
  refine ⟨?_, ?_⟩
  · rw [Extract_ret env paths output parsed hrun hparse, hverify]
    rfl
  · intro p hp
    exact ⟨List.count_pos_iff.mpr (hmem p hp),
      fun hnodup => List.count_eq_one_of_mem hnodup (hmem p hp)⟩

/-- C3, witness: `a` and `b` are requested and parsed, in another order. -/
theorem extract_returns_parsed_witness :
    (Extract (goMachine "b: go1.22 a: go1.22" [⟨"b", []⟩, ⟨"a", []⟩] []) ["a", "b"]).ret =
        .ok [⟨"b", []⟩, ⟨"a", []⟩] ∧
      ([(⟨"b", []⟩ : BuildInfo), ⟨"a", []⟩].map BuildInfo.Path).count "a" = 1 :=
  ⟨(extract_returns_parsed (goMachine "b: go1.22 a: go1.22" [⟨"b", []⟩, ⟨"a", []⟩] [])
      ["a", "b"] "b: go1.22 a: go1.22" [⟨"b", []⟩, ⟨"a", []⟩] (by decide) rfl rfl
      (by decide)).1,
    ((extract_returns_parsed (goMachine "b: go1.22 a: go1.22" [⟨"b", []⟩, ⟨"a", []⟩] [])
      ["a", "b"] "b: go1.22 a: go1.22" [⟨"b", []⟩, ⟨"a", []⟩] (by decide) rfl rfl
      (by decide)).2 "a" (by decide)).2 (by decide)⟩

/-- C4: `verifyFetched` returns nil exactly when every requested reference is, by value, the
reference of some fetched module, wherever it stands in the list; otherwise it returns an
aggregated error holding one diagnostic for each unresolved requested entry, in request order,
each built from that reference; and when the verification at the end of `Fetch` returns an
error, `Fetch` returns it, wrapped, and no modules. -/
theorem verifyFetched_complete (env : Env) (fetched : List Module)
    (requested : List ModuleReference) :
    (verifyFetched fetched requested = none ↔
        ∀ r ∈ requested, ∃ m ∈ fetched, m.ModuleReference = r) ∧
      ((¬ ∀ r ∈ requested, ∃ m ∈ fetched, m.ModuleReference = r) →
        verifyFetched fetched requested =
          some (.Multi ((requested.filter
            (fun r => decide (∀ m ∈ fetched, m.ModuleReference ≠ r))).map
            (fun r => .Errorf "module %s could not be resolved" [r.String])))) ∧
      (∀ (goBin tempDir out : String) (args : List String) (decoded : List Module)
          (err : GoError),
        Event.Run goBin args tempDir ∈ (Fetch env requested).trace →
        env.CombinedOutput goBin args tempDir = (out, none) →
        decodeLoop (env.NewDecoder out) [] = .ok decoded →
        verifyFetched (addLocal decoded requested) requested = some err →
        (Fetch env requested).ret =
          .error (.Wrapf "failed to fetch all modules: %w" err [])) := by
  refine ⟨verifyFetched_eq_none_iff fetched requested, ?_, ?_⟩
  · intro hgap
    have hfilter : requested.filter (fun r => decide (r ∉ fetched.map Module.ModuleReference)) =
        requested.filter (fun r => decide (∀ m ∈ fetched, m.ModuleReference ≠ r)) := by
      apply List.filter_congr
      intro r _
      simp [List.mem_map]
    have hne : requested.filter (fun r => decide (∀ m ∈ fetched, m.ModuleReference ≠ r)) ≠
        [] := by
      intro hnil
      apply hgap
      intro r hr
      by_contra hnone
      have hmem : r ∈ requested.filter
          (fun r => decide (∀ m ∈ fetched, m.ModuleReference ≠ r)) := by
        rw [List.mem_filter]
        refine ⟨hr, ?_⟩
        simp only [decide_eq_true_eq]
        intro m hm heq
        exact hnone ⟨m, hm, heq⟩
      rw [hnil] at hmem
      exact absurd hmem (List.not_mem_nil r)
    rw [verifyFetched_eq, hfilter, aggregate_eq_some _ _ hne]
  · intro goBin tempDir out args decoded err hrun hout hdec hverify
    rw [Fetch_ret_of_run env requested goBin tempDir out args hrun hout, hdec]
    simp only [hverify]

/-- C4, witness: `a@v1`, `b@v2`, the local `./c` and `d@v4` are requested and the toolchain
resolves only `b@v2`.  Against the decoded module alone `a@v1`, `./c` and `d@v4` are
unresolved; in `Fetch`, where `./c` is synthesized, the error names `a@v1` and `d@v4`. -/
theorem verifyFetched_complete_witness :
    verifyFetched [resolvedB]
        [⟨"a", "v1", false⟩, ⟨"b", "v2", false⟩, ⟨"./c", "", true⟩, ⟨"d", "v4", false⟩] =
        some (.Multi [.Errorf "module %s could not be resolved" ["a@v1"],
          .Errorf "module %s could not be resolved" ["./c@"],
          .Errorf "module %s could not be resolved" ["d@v4"]]) ∧
      (Fetch (goMachine "record of b@v2" [] [.value resolvedB])
        [⟨"a", "v1", false⟩, ⟨"b", "v2", false⟩, ⟨"./c", "", true⟩, ⟨"d", "v4", false⟩]).ret =
        .error (.Wrapf "failed to fetch all modules: %w"
          (.Multi [.Errorf "module %s could not be resolved" ["a@v1"],
            .Errorf "module %s could not be resolved" ["d@v4"]]) []) :=
  ⟨(verifyFetched_complete (goMachine "record of b@v2" [] [.value resolvedB]) [resolvedB]
      [⟨"a", "v1", false⟩, ⟨"b", "v2", false⟩, ⟨"./c", "", true⟩, ⟨"d", "v4", false⟩]).2.1
      (by decide),
    (verifyFetched_complete (goMachine "record of b@v2" [] [.value resolvedB]) [resolvedB]
      [⟨"a", "v1", false⟩, ⟨"b", "v2", false⟩, ⟨"./c", "", true⟩, ⟨"d", "v4", false⟩]).2.2
      "/usr/lib/go/bin/go" "/tmp/lichen1" "record of b@v2"
      ["mod", "download", "-json", "a@v1", "b@v2", "d@v4"] [resolvedB]
      (.Multi [.Errorf "module %s could not be resolved" ["a@v1"],
        .Errorf "module %s could not be resolved" ["d@v4"]])
      (.tail _ (.tail _ (.tail _ (.tail _ (.head _))))) rfl rfl rfl⟩

/-- C5, counterexample: the local reference `./c` is requested twice; `Fetch` succeeds and
returns a synthesized module for each of the two entries, so the requested reference is the
reference of two returned modules, not of exactly one. -/
theorem fetch_keeps_duplicate_references :
    (Fetch (goMachine "record of b@v2" [] [.value resolvedB])
        [⟨"b", "v2", false⟩, ⟨"./c", "", true⟩, ⟨"./c", "", true⟩]).ret =
      .ok [resolvedB, ⟨⟨"./c", "", true⟩, "", "", ""⟩, ⟨⟨"./c", "", true⟩, "", "", ""⟩] ∧
      ([resolvedB, ⟨⟨"./c", "", true⟩, "", "", ""⟩,
        ⟨⟨"./c", "", true⟩, "", "", ""⟩].map Module.ModuleReference).count ⟨"./c", "", true⟩ =
        2 :=
  ⟨rfl, by decide⟩

/-- C5, as amended: whenever `Fetch` returns successfully, every requested reference, local ones
included, is the reference of at least one returned module; and it is the reference of exactly
one returned module when the requested references are pairwise distinct, the records decoded
from the toolchain output have pairwise distinct references, and no decoded record has the
reference of a requested local reference. -/
theorem fetch_success_covers (env : Env) (refs : List ModuleReference) (modules : List Module)
    (hok : (Fetch env refs).ret = .ok modules) :
    ∀ r ∈ refs, 1 ≤ (modules.map Module.ModuleReference).count r ∧
      (∀ (goBin tempDir out : String) (args : List String) (decoded : List Module),
        Event.Run goBin args tempDir ∈ (Fetch env refs).trace →
        env.CombinedOutput goBin args tempDir = (out, none) →
        decodeLoop (env.NewDecoder out) [] = .ok decoded →
        refs.Nodup →
        (decoded.map Module.ModuleReference).Nodup →
        (∀ m ∈ decoded, ∀ l ∈ refs, l.IsLocal = true → m.ModuleReference ≠ l) →
        (modules.map Module.ModuleReference).count r = 1) := by
  intro r hr
  have hne : refs ≠ [] := List.ne_nil_of_mem hr
  have hmem : r ∈ modules.map Module.ModuleReference := by
    rcases Fetch_cases env refs hne with
      ⟨found, abs, goBin, tempDir, h1, h2, h3, h4, h5⟩ | ⟨e, _, hF⟩ | ⟨found, e, _, _, hF⟩ |
      ⟨found, abs, e, _, _, _, hF⟩ | ⟨found, abs, goBin, _, _, _, _, _, hF⟩ |
      ⟨found, abs, goBin, e, _, _, _, _, hF⟩
    · rw [Fetch_located_ret env refs found abs goBin tempDir hne h1 h2 h3 h4 h5] at hok
      rcases hc : env.CombinedOutput goBin (fetchArgs refs) tempDir with ⟨out, _ | err⟩
      · rw [hc] at hok
        simp only [] at hok
        cases hd : decodeLoop (env.NewDecoder out) [] with
        | error e => rw [hd] at hok; simp at hok
        | ok decoded =>
          rw [hd] at hok
          simp only [] at hok
          cases hv : verifyFetched (addLocal decoded refs) refs with
          | some err => rw [hv] at hok; simp at hok
          | none =>
            rw [hv] at hok
            simp only [Except.ok.injEq] at hok
            subst hok
            obtain ⟨m, hm, hmr⟩ := (verifyFetched_eq_none_iff _ _).mp hv r hr
            exact List.mem_map.mpr ⟨m, hm, hmr⟩
      · rw [hc] at hok
        simp at hok
    all_goals (rw [hF] at hok; simp at hok)
  refine ⟨List.count_pos_iff.mpr hmem, ?_⟩
  intro goBin tempDir out args decoded hrun hout hdec hrefs hdecoded hdisjoint
  have hret := Fetch_ret_of_run env refs goBin tempDir out args hrun hout
  rw [hdec, hok] at hret
  simp only [] at hret
  have hmodules : modules = addLocal decoded refs := by
    cases hv : verifyFetched (addLocal decoded refs) refs with
    | some err => rw [hv] at hret; simp at hret
    | none =>
      rw [hv] at hret
      simpa using hret
  have hnodup : (modules.map Module.ModuleReference).Nodup := by
    rw [hmodules, addLocal_eq, List.map_append, List.map_map]
    have hid : (refs.filter (fun r => r.IsLocal)).map
        (Module.ModuleReference ∘ fun r => (⟨r, "", "", ""⟩ : Module)) =
        refs.filter (fun r => r.IsLocal) := by
      simp [Function.comp_def]
    rw [hid, List.nodup_append]
    refine ⟨hdecoded, hrefs.filter _, ?_⟩
    intro x hx hx'
    obtain ⟨m, hm, rfl⟩ := List.mem_map.mp hx
    rw [List.mem_filter] at hx'
    exact hdisjoint m hm _ hx'.1 hx'.2 rfl
  exact List.count_eq_one_of_mem hnodup hmem

/-- C5, witness: `b@v2` and the local `./c` are requested, the toolchain prints one record, for
`b@v2`, and each requested reference is returned once. -/
theorem fetch_success_covers_witness :
    (Fetch (goMachine "record of b@v2" [] [.value resolvedB])
        [⟨"b", "v2", false⟩, ⟨"./c", "", true⟩]).ret =
        .ok [resolvedB, ⟨⟨"./c", "", true⟩, "", "", ""⟩] ∧
      ([resolvedB, ⟨⟨"./c", "", true⟩, "", "", ""⟩].map Module.ModuleReference).count
        ⟨"./c", "", true⟩ = 1 :=
  ⟨rfl,
    (fetch_success_covers (goMachine "record of b@v2" [] [.value resolvedB])
      [⟨"b", "v2", false⟩, ⟨"./c", "", true⟩]
      [resolvedB, ⟨⟨"./c", "", true⟩, "", "", ""⟩]
      rfl ⟨"./c", "", true⟩ (by decide)).2
      "/usr/lib/go/bin/go" "/tmp/lichen1" "record of b@v2" ["mod", "download", "-json", "b@v2"]
      [resolvedB] (.tail _ (.tail _ (.tail _ (.tail _ (.head _))))) rfl rfl
      (by decide) (by decide) (by decide)⟩

/-- C6: whatever mix of local and non-local references is requested (also with no non-local one),
once the toolchain command ran and its output was decoded, `Fetch` appends to the decoded
modules one synthesized module per local reference, carrying the reference and empty
metadata; if the decoded output has a module for every non-local requested reference, the
verification passes and `Fetch` succeeds with that list; and the verification of the whole
request is the verification of its non-local part against the decoded output, so a local
reference is never reported. -/
theorem fetch_local_references_pass (env : Env) (refs : List ModuleReference)
    (goBin tempDir out : String) (args : List String) (decoded : List Module)
    (hrun : Event.Run goBin args tempDir ∈ (Fetch env refs).trace)
    (hout : env.CombinedOutput goBin args tempDir = (out, none))
    (hdec : decodeLoop (env.NewDecoder out) [] = .ok decoded) :
    addLocal decoded refs =
        decoded ++ (refs.filter (fun r => r.IsLocal)).map (fun r => ⟨r, "", "", ""⟩) ∧
      ((∀ r ∈ refs, r.IsLocal = false → ∃ m ∈ decoded, m.ModuleReference = r) →
        verifyFetched (addLocal decoded refs) refs = none ∧
        (Fetch env refs).ret =
          .ok (decoded ++ (refs.filter (fun r => r.IsLocal)).map (fun r => ⟨r, "", "", ""⟩))) ∧
      verifyFetched (addLocal decoded refs) refs =
        verifyFetched decoded (refs.filter (fun r => !r.IsLocal)) := by
  refine ⟨addLocal_eq decoded refs, ?_, verifyFetched_addLocal decoded refs⟩
  intro hall
  have hverify : verifyFetched (addLocal decoded refs) refs = none := by
    rw [verifyFetched_addLocal, verifyFetched_eq_none_iff]
    intro r hr
    rw [List.mem_filter] at hr
    exact hall r hr.1 (by simpa using hr.2)
  refine ⟨hverify, ?_⟩
  rw [Fetch_ret_of_run env refs goBin tempDir out args hrun hout, hdec]
  simp only [hverify]
  rw [addLocal_eq]

/-- C7, the defect at a concrete input: the local reference `./c` alone is requested on a
machine with a Go toolchain.  No reference is passed to the command, yet `Fetch` runs
`go mod download -json` with no module argument; the toolchain exits with status 1 and
`Fetch` returns that failure instead of the synthesized module for `./c`. -/
theorem fetch_only_local_runs_toolchain :
    fetchArgs [⟨"./c", "", true⟩] = ["mod", "download", "-json"] ∧
      (Fetch goMachineNoModules [⟨"./c", "", true⟩]).trace =
        [.LookPath "go", .Abs "/usr/bin/go", .EvalSymlinks "/usr/bin/go",
          .MkdirTemp "" "lichen",
          .Run "/usr/lib/go/bin/go" ["mod", "download", "-json"] "/tmp/lichen1",
          .Remove "/tmp/lichen1"] ∧
      (Fetch goMachineNoModules [⟨"./c", "", true⟩]).ret =
        .error (.Wrapf "failed to fetch: %w (output: %s)" (.New "exit status 1")
          ["go: no modules specified (see 'go help mod download')"]) :=
  ⟨rfl, rfl, rfl⟩

/-- C6, witness: the local `./c` and `b@v2` are requested and the toolchain resolves `b@v2`. -/
theorem fetch_local_references_pass_witness :
    (Fetch (goMachine "record of b@v2" [] [.value resolvedB])
        [⟨"./c", "", true⟩, ⟨"b", "v2", false⟩]).ret =
      .ok [resolvedB, ⟨⟨"./c", "", true⟩, "", "", ""⟩] :=
  ((fetch_local_references_pass (goMachine "record of b@v2" [] [.value resolvedB])
    [⟨"./c", "", true⟩, ⟨"b", "v2", false⟩]
    "/usr/lib/go/bin/go" "/tmp/lichen1" "record of b@v2" ["mod", "download", "-json", "b@v2"]
    [resolvedB]
    (.tail _ (.tail _ (.tail _ (.tail _ (.head _))))) rfl rfl).2.1 (by decide)).2

/-- C8: when the search-path match, made absolute and with its symlinks resolved, has a file
name that is neither `go` nor `go.exe`, `Extract` and `Fetch` (on a non-empty list) return the
unexpected-binary error after the three lookups and call nothing else: no workspace is
created and no process is run.  Conversely every process run by `Extract` or `Fetch` is run
on a path whose file name is `go` or `go.exe`. -/
theorem unexpected_binary_gate (env : Env) (paths : List String) (refs : List ModuleReference) :
    (∀ found abs goBin : String, env.LookPath "go" = .ok found → env.Abs found = .ok abs →
        env.EvalSymlinks abs = .ok goBin → env.Base goBin ≠ "go" → env.Base goBin ≠ "go.exe" →
        ((Extract env paths).ret = .error (.New "unexpected binary resolved") ∧
          (Extract env paths).trace = [.LookPath "go", .Abs found, .EvalSymlinks abs]) ∧
        (refs ≠ [] →
          (Fetch env refs).ret = .error (.New "unexpected binary resolved") ∧
          (Fetch env refs).trace = [.LookPath "go", .Abs found, .EvalSymlinks abs])) ∧
      (∀ (name dir : String) (args : List String),
        Event.Run name args dir ∈ (Extract env paths).trace ∨
          Event.Run name args dir ∈ (Fetch env refs).trace →
        env.Base name = "go" ∨ env.Base name = "go.exe") := by
  refine ⟨?_, ?_⟩
  · intro found abs goBin h1 h2 h3 h4 h4'
    have hgo : goVersion env paths = ⟨.error (.New "unexpected binary resolved"),
        [.LookPath "go", .Abs found, .EvalSymlinks abs]⟩ := by
      simp only [goVersion, bind_eq, Run.bind, call, h1, h2, h3, fail]
      rw [if_pos ⟨h4, h4'⟩]
      rfl
    refine ⟨⟨?_, ?_⟩, ?_⟩
    · simp only [Extract, bind_eq, Run.bind, hgo]
    · rw [Extract_trace, hgo]
    · intro hne
      have hlen : refs.length ≠ 0 := by simpa using hne
      have hF : Fetch env refs = ⟨.error (.New "unexpected binary resolved"),
          [.LookPath "go", .Abs found, .EvalSymlinks abs]⟩ := by
        simp only [Fetch, hlen, if_false, bind_eq, Run.bind, call, h1, h2, h3, fail]
        rw [if_pos ⟨h4, h4'⟩]
        rfl
      rw [hF]
      exact ⟨rfl, rfl⟩
  · rintro name dir args (h | h)
    · rw [Extract_trace] at h
      exact (goVersion_run_inv env paths name dir args h).2.1
    · exact (Fetch_run_inv env refs name dir args h).2.2.1

/-- C8, witness: the `go` of the search path resolves to `/opt/evil/gopher`; and on a machine
where it resolves to `/usr/lib/go/bin/go`, that is the binary `Extract` runs. -/
theorem unexpected_binary_gate_witness :
    ((Extract hijackedMachine ["app"]).ret = .error (.New "unexpected binary resolved") ∧
        (Extract hijackedMachine ["app"]).trace =
          [.LookPath "go", .Abs "/usr/bin/go", .EvalSymlinks "/usr/bin/go"]) ∧
      ((Fetch hijackedMachine [⟨"a", "v1", false⟩]).ret =
          .error (.New "unexpected binary resolved") ∧
        (Fetch hijackedMachine [⟨"a", "v1", false⟩]).trace =
          [.LookPath "go", .Abs "/usr/bin/go", .EvalSymlinks "/usr/bin/go"]) ∧
      (unixBase "/usr/lib/go/bin/go" = "go" ∨ unixBase "/usr/lib/go/bin/go" = "go.exe") :=
  ⟨((unexpected_binary_gate hijackedMachine ["app"] [⟨"a", "v1", false⟩]).1
      "/usr/bin/go" "/usr/bin/go" "/opt/evil/gopher" rfl rfl rfl (by decide) (by decide)).1,
    ((unexpected_binary_gate hijackedMachine ["app"] [⟨"a", "v1", false⟩]).1
      "/usr/bin/go" "/usr/bin/go" "/opt/evil/gopher" rfl rfl rfl (by decide) (by decide)).2
      (by decide),
    (unexpected_binary_gate (goMachine "app: go1.22" [⟨"app", []⟩] []) ["app"] []).2
      "/usr/lib/go/bin/go" "/tmp/lichen1" ["version", "-m", "app"]
      (Or.inl (.tail _ (.tail _ (.tail _ (.tail _ (.head _))))))⟩

/-- C9: once the toolchain command ran and succeeded, `Fetch` decodes its output record by
record.  If the decoder yields `records` and then reaches end-of-stream, the loop ends with
exactly `records` and `Fetch` goes on to add the local modules and verify.  If the decoder
yields `records` and then an error that is not end-of-stream, `Fetch` returns that error and
no modules, however many records came before and whatever references were requested. -/
theorem fetch_decode_all_or_nothing (env : Env) (refs : List ModuleReference)
    (goBin tempDir out : String) (args : List String)
    (hrun : Event.Run goBin args tempDir ∈ (Fetch env refs).trace)
    (hout : env.CombinedOutput goBin args tempDir = (out, none)) :
    (∀ (records : List Module) (rest : List DecodeResult),
        env.NewDecoder out = records.map .value ++ rest →
        (rest = [] ∨ ∃ tl, rest = .EOF :: tl) →
        decodeLoop (env.NewDecoder out) [] = .ok records ∧
        (Fetch env refs).ret =
          match verifyFetched (addLocal records refs) refs with
          | some err => .error (.Wrapf "failed to fetch all modules: %w" err [])
          | none => .ok (addLocal records refs)) ∧
      (∀ (records : List Module) (err : GoError) (rest : List DecodeResult),
        env.NewDecoder out = records.map .value ++ .failed err :: rest →
        (Fetch env refs).ret = .error err) := by
  have hret := Fetch_ret_of_run env refs goBin tempDir out args hrun hout
  refine ⟨?_, ?_⟩
  · intro records rest hstream hrest
    have hloop : decodeLoop (env.NewDecoder out) [] = .ok records := by
      rw [hstream, decodeLoop_clean records rest [] hrest]
      rfl
    refine ⟨hloop, ?_⟩
    rw [hret, hloop]
  · intro records err rest hstream
    rw [hret, hstream, decodeLoop_failed]

/-- C9, witness: `b@v2` and the local `./c` are requested.  A stream of one record for `b@v2`
gives both modules; a stream with that record, then a syntax error, then another record,
gives the syntax error. -/
theorem fetch_decode_all_or_nothing_witness :
    (decodeLoop [.value resolvedB] [] = .ok [resolvedB] ∧
        (Fetch (goMachine "record of b@v2" [] [.value resolvedB])
          [⟨"./c", "", true⟩, ⟨"b", "v2", false⟩]).ret =
          .ok [resolvedB, ⟨⟨"./c", "", true⟩, "", "", ""⟩]) ∧
      (Fetch (goMachine "record of b@v2, damaged" []
          [.value resolvedB, .failed (.New "invalid character"),
            .value ⟨⟨"a", "v1", false⟩, "", "", ""⟩])
        [⟨"./c", "", true⟩, ⟨"b", "v2", false⟩]).ret = .error (.New "invalid character") :=
  ⟨(fetch_decode_all_or_nothing (goMachine "record of b@v2" [] [.value resolvedB])
      [⟨"./c", "", true⟩, ⟨"b", "v2", false⟩]
      "/usr/lib/go/bin/go" "/tmp/lichen1" "record of b@v2" ["mod", "download", "-json", "b@v2"]
      (.tail _ (.tail _ (.tail _ (.tail _ (.head _))))) rfl).1 [resolvedB] [] rfl (Or.inl rfl),
    (fetch_decode_all_or_nothing
      (goMachine "record of b@v2, damaged" []
        [.value resolvedB, .failed (.New "invalid character"),
          .value ⟨⟨"a", "v1", false⟩, "", "", ""⟩])
      [⟨"./c", "", true⟩, ⟨"b", "v2", false⟩]
      "/usr/lib/go/bin/go" "/tmp/lichen1" "record of b@v2, damaged"
      ["mod", "download", "-json", "b@v2"]
      (.tail _ (.tail _ (.tail _ (.tail _ (.head _))))) rfl).2
      [resolvedB] (.New "invalid character") [.value ⟨⟨"a", "v1", false⟩, "", "", ""⟩] rfl⟩

/-- C10, counterexample: a call of `Fetch` on an empty list, and a call of `Extract` on a machine
without a Go toolchain, end before a workspace exists and attempt no removal at all. -/
theorem no_workspace_no_removal :
    ((Fetch (goMachine "" [] []) []).trace.filter Event.isRemove).length = 0 ∧
      ((Extract machineWithoutGo ["app"]).trace.filter Event.isRemove).length = 0 :=
  ⟨rfl, rfl⟩

/-- C10, as amended: in every call of `Extract` and of `Fetch` that created the scratch
workspace, the removal of that directory is attempted exactly once, whether the call succeeds
or fails; a call that ends before the workspace exists attempts no removal; and the value and
error a call returns do not depend on what the removal returns. -/
theorem cleanup_once (env : Env) (paths : List String) (refs : List ModuleReference) :
    (∀ tempDir, env.MkdirTemp "" "lichen" = .ok tempDir →
        (Event.MkdirTemp "" "lichen" ∈ (Extract env paths).trace →
          (Extract env paths).trace.filter Event.isRemove = [.Remove tempDir]) ∧
        (Event.MkdirTemp "" "lichen" ∈ (Fetch env refs).trace →
          (Fetch env refs).trace.filter Event.isRemove = [.Remove tempDir])) ∧
      ((Event.MkdirTemp "" "lichen" ∉ (Extract env paths).trace ∨
          ∃ e, env.MkdirTemp "" "lichen" = .error e) →
        (Extract env paths).trace.filter Event.isRemove = []) ∧
      ((Event.MkdirTemp "" "lichen" ∉ (Fetch env refs).trace ∨
          ∃ e, env.MkdirTemp "" "lichen" = .error e) →
        (Fetch env refs).trace.filter Event.isRemove = []) ∧
      (∀ removal : String → Option GoError,
        (Extract { env with Remove := removal } paths).ret = (Extract env paths).ret ∧
        (Fetch { env with Remove := removal } refs).ret = (Fetch env refs).ret) := by
  refine ⟨?_, ?_, (Fetch_removals env refs).2, ?_⟩
  · intro tempDir h5
    refine ⟨?_, fun h => (Fetch_removals env refs).1 tempDir h h5⟩
    rw [Extract_trace]
    exact fun h => (goVersion_removals env paths).1 tempDir h h5
  · rw [Extract_trace]
    exact (goVersion_removals env paths).2
  · intro removal
    exact ⟨Extract_ret_remove env paths removal, Fetch_ret_remove env refs removal⟩

/-- C10, witness: on a machine where the removal fails, `Extract` and `Fetch` attempt it once and
return what they return where it succeeds; on a machine without a Go toolchain nothing is
removed. -/
theorem cleanup_once_witness :
    ((Extract (machine "/usr/bin/go" "/usr/lib/go/bin/go" "app: go1.22" [⟨"app", []⟩]
          [.value resolvedB] (some (.New "directory not empty"))) ["app"]).trace.filter
          Event.isRemove = [.Remove "/tmp/lichen1"] ∧
        (Fetch (machine "/usr/bin/go" "/usr/lib/go/bin/go" "app: go1.22" [⟨"app", []⟩]
          [.value resolvedB] (some (.New "directory not empty")))
          [⟨"b", "v2", false⟩]).trace.filter Event.isRemove = [.Remove "/tmp/lichen1"]) ∧
      (Extract machineWithoutGo ["app"]).trace.filter Event.isRemove = [] ∧
      (Fetch machineWithoutGo [⟨"b", "v2", false⟩]).trace.filter Event.isRemove = [] :=
  ⟨⟨((cleanup_once (machine "/usr/bin/go" "/usr/lib/go/bin/go" "app: go1.22" [⟨"app", []⟩]
        [.value resolvedB] (some (.New "directory not empty"))) ["app"]
        [⟨"b", "v2", false⟩]).1 "/tmp/lichen1" rfl).1 (.tail _ (.tail _ (.tail _ (.head _)))),
      ((cleanup_once (machine "/usr/bin/go" "/usr/lib/go/bin/go" "app: go1.22" [⟨"app", []⟩]
        [.value resolvedB] (some (.New "directory not empty"))) ["app"]
        [⟨"b", "v2", false⟩]).1 "/tmp/lichen1" rfl).2 (.tail _ (.tail _ (.tail _ (.head _))))⟩,
    (cleanup_once machineWithoutGo ["app"] [⟨"b", "v2", false⟩]).2.1
      (Or.inl (show Event.MkdirTemp "" "lichen" ∉ [Event.LookPath "go"] by simp)),
    (cleanup_once machineWithoutGo ["app"] [⟨"b", "v2", false⟩]).2.2.1
      (Or.inl (show Event.MkdirTemp "" "lichen" ∉ [Event.LookPath "go"] by simp))⟩

end Lichen
